import Mathlib

/-!
# go-testrailclient: a verification development for `testrail/testrail_api.go`

The Go package is embedded shallowly.  Go strings are modelled as Lean
strings (sequences of Unicode characters), Go `int` as `Int`, the global
`testCaseMap` as an explicit state value, and everything the package obtains
from outside itself (the HTTP exchange, the JSON decoder and encoder, the CSV
lexer, the Go parser) as data passed to the embedded functions.  A run-time
fault (index out of range, nil dereference) is an explicit outcome.
-/

namespace TestRail

/-! ## Outcomes -/

/-- Result of running a Go function that may stop with a run-time fault
instead of returning. -/
inductive Outcome (α : Type) where
  | ok (a : α)
  | fault (msg : String)
deriving DecidableEq, Repr

/-! ## Data model (lines 25-107) -/

def TestRailProjectID : Int := 34

def TestRailSuiteID : Int := 5279

structure Case where
  ID : Int
  Title : String
deriving DecidableEq, Repr

structure Section where
  ID : Int
  Name : String
deriving DecidableEq, Repr

structure Suite where
  ID : Int
  Name : String
deriving DecidableEq, Repr

structure TestResult where
  Title : String
  Status : String
  PriorityID : String
  Estimate : String
  CustomOS : String
  Description : String
deriving DecidableEq, Repr

/-! ## The case-ID index (lines 109-119) -/

/-- A Go `map[string]int`, read through the two-value index expression: a
key is either absent or bound to one value.  The nil map has no key. -/
abbrev GoMap := String → Option Int

/-- The map returned by `make(map[string]int)`. -/
def GoMap.make : GoMap := fun _ => none

/-- The assignment `m[k] = v`. -/
def GoMap.set (m : GoMap) (k : String) (v : Int) : GoMap :=
  fun k' => if k' = k then some v else m k'

/-- The two-value read `v, ok := m[k]`; an absent key reads as the zero value. -/
def GoMap.get (m : GoMap) (k : String) : Int × Bool :=
  match m k with
  | some v => (v, true)
  | none => (0, false)

/-- Function `CreateTestCaseIdMap`: the first argument is the value of the global
`testCaseMap` before the call, the result its value after the call. -/
def CreateTestCaseIdMap (_testCaseMap : GoMap) (tests : List Case) : GoMap :=
  tests.foldl (fun m t => m.set t.Title t.ID) GoMap.make

/-- Function `GetTestCaseIdByName`, reading the global `testCaseMap`. -/
def GetTestCaseIdByName (testCaseMap : GoMap) (testCaseName : String) : Int × Bool :=
  let (caseId, validKey) := testCaseMap.get testCaseName
  (caseId, validKey)

/-! ## The environment of the package -/

/-- One call of `executeTestRailRequest`. -/
structure Request where
  method : String
  url : String
  payload : String
deriving DecidableEq, Repr

/-- One result of `csv.Reader`'s lexer: the fields of the next record, or a
lexical error. -/
abbrev CsvRecord := Except String (List String)

/-- What the package reads from outside itself.
* `testRailBaseUrl`: the package variable of that name.
* `respond`: the HTTP exchange of `executeTestRailRequest`: status code and
  body, or `none` when the request cannot be built or the transport returns
  no response.
* `decodeSections`, `decodeSuites`: the value left in the target of
  `json.Unmarshal` (the decode error is discarded by the callers).
* `openCsv`: `os.Open` followed by the lexing of the file into records.
* `jsonMarshal`: `json.Marshal` on a `TestResult`. -/
structure Env where
  testRailBaseUrl : String
  respond : Request → Option (Int × String)
  decodeSections : String → List Section
  decodeSuites : String → List Suite
  openCsv : String → Except String (List CsvRecord)
  jsonMarshal : TestResult → Except String String

/-- Function `executeTestRailRequest` (lines 275-298).  The requests sent so far are
threaded through as state.  Without a request or a response the function
dereferences nil (`req.SetBasicAuth`, `response.Body`). -/
def executeTestRailRequest (E : Env) (sent : List Request) (method url payload : String) :
    Outcome (Int × String) × List Request :=
  let req : Request := { method := method, url := url, payload := payload }
  match E.respond req with
  | some (statusCode, respBytes) => (.ok (statusCode, respBytes), sent ++ [req])
  | none => (.fault "nil pointer dereference", sent ++ [req])

/-- The URL built on line 165. -/
def getSectionsUrl (E : Env) (ProjectID SuiteID : Int) : String :=
  E.testRailBaseUrl ++ "/index.php?/api/v2/get_sections/" ++ toString ProjectID
    ++ "&suite_id=" ++ toString SuiteID

/-- The URL built on line 199. -/
def getSuitesUrl (E : Env) (ProjectID : Int) : String :=
  E.testRailBaseUrl ++ "/index.php?/api/v2/get_suites/" ++ toString ProjectID

/-- Function `GetSectionIDByName` (lines 164-192). -/
def GetSectionIDByName (E : Env) (sent : List Request) (sectionName : String)
    (ProjectID SuiteID : Int) : Outcome (Int × Bool) × List Request :=
  let url := getSectionsUrl E ProjectID SuiteID
  match executeTestRailRequest E sent "GET" url "" with
  | (.fault m, sent') => (.fault m, sent')
  | (.ok (_statusCode, resp), sent') =>
    let sections := E.decodeSections resp
    if sections.length = 0 then
      (.ok (-1, false), sent')
    else
      let sectionId : Int :=
        sections.foldl (fun sectionId s => if s.Name = sectionName then s.ID else sectionId) 0
      let validKey := sectionId != 0
      (.ok (sectionId, validKey), sent')

/-- Function `GetSuiteIDByName` (lines 195-224).  The second component of the result
is the Go `error`: `none` is nil. -/
def GetSuiteIDByName (E : Env) (sent : List Request) (SuiteName : String)
    (ProjectID : Int) : Outcome (Int × Option String) × List Request :=
  let url := getSuitesUrl E ProjectID
  match executeTestRailRequest E sent "GET" url "" with
  | (.fault m, sent') => (.fault m, sent')
  | (.ok (_statusCode, resp), sent') =>
    let Suites := E.decodeSuites resp
    if Suites.length = 0 then
      (.ok (-1, some "Suites list is empty"), sent')
    else
      let SuiteID : Int :=
        Suites.foldl (fun SuiteID s => if s.Name = SuiteName then s.ID else SuiteID) 0
      if SuiteID = 0 then
        (.ok (-1, some ("Suite ID not found, for suite name " ++ SuiteName)), sent')
      else
        (.ok (SuiteID, none), sent')

/-! ## Delimited input (lines 122-161) -/

/-- What one call of `reader.Read()` returns. -/
inductive ReadResult where
  | record (line : List String)
  | eof
  | err (msg : String)
deriving DecidableEq, Repr

/-- The error `csv.ErrFieldCount`. -/
def ErrFieldCount : String := "wrong number of fields"

/-- One `reader.Read()` of `encoding/csv` on the next lexed record, for a
reader created by `csv.NewReader` (so `FieldsPerRecord` starts at 0): a
positive `FieldsPerRecord` is the required number of fields, and 0 means that
the record read now fixes it.  Returns the result and the new
`FieldsPerRecord`. -/
def readRecord (FieldsPerRecord : Nat) : CsvRecord → ReadResult × Nat
  | .error e => (.err e, FieldsPerRecord)
  | .ok line =>
    if FieldsPerRecord > 0 then
      if line.length ≠ FieldsPerRecord then (.err ErrFieldCount, FieldsPerRecord)
      else (.record line, FieldsPerRecord)
    else (.record line, line.length)

/-- The composite literal of lines 144-151: `line[0]` to `line[5]` are read
in order, and the first index that is out of range faults. -/
def toTestResult (line : List String) : Outcome TestResult :=
  match line with
  | title :: status :: priority :: estimate :: os :: description :: _ =>
    .ok { Title := title, Status := status, PriorityID := priority, Estimate := estimate,
          CustomOS := os, Description := description }
  | _ => .fault ("index out of range [" ++ toString line.length ++ "] with length "
          ++ toString line.length)

/-- The `for` loop of `CsvtoJson` (lines 134-159) over the records still to
be read; `jsonRows` is the slice built so far.  The result is the pair
returned by `CsvtoJson`: the rows (nil is the empty list) and the error. -/
def csvLoop (E : Env) : Nat → List String → List CsvRecord →
    Outcome (List String × Option String)
  | _, jsonRows, [] => .ok (jsonRows, none)
  | FieldsPerRecord, jsonRows, r :: rest =>
    match readRecord FieldsPerRecord r with
    | (.eof, _) => .ok (jsonRows, none)
    | (.err error, _) => .ok ([], some error)
    | (.record line, FieldsPerRecord') =>
      match toTestResult line with
      | .fault m => .fault m
      | .ok testResult =>
        match E.jsonMarshal testResult with
        | .error _ => csvLoop E FieldsPerRecord' jsonRows rest
        | .ok jsonData => csvLoop E FieldsPerRecord' (jsonRows ++ [jsonData]) rest

/-- Function `CsvtoJson` (lines 122-161). -/
def CsvtoJson (E : Env) (filePath : String) : Outcome (List String × Option String) :=
  match E.openCsv filePath with
  | .error err => .ok ([], some err)
  | .ok records => csvLoop E 0 [] records

/-! ## Uploading cases (lines 226-255) -/

/-- The format string of line 240, for the number substituted into it. -/
def addCaseUrl (E : Env) (n : Int) : String :=
  E.testRailBaseUrl ++ "/index.php?/api/v2/add_case/" ++ toString n

/-- The `for` loop of lines 238-247: one POST per row. -/
def uploadRows (E : Env) : List Request → List String → Outcome Unit × List Request
  | sent, [] => (.ok (), sent)
  | sent, row :: rows =>
    let url := addCaseUrl E 266771
    match executeTestRailRequest E sent "POST" url row with
    | (.fault m, sent') => (.fault m, sent')
    | (.ok _, sent') => uploadRows E sent' rows

/-- Function `UploadTestCasesInCSV` (lines 227-255).  The result is
`(statusCode, resp, err)` with `none` for a nil `resp` or `err`.  The named
results `statusCode` and `resp` are shadowed inside the loop and keep their
zero values. -/
def UploadTestCasesInCSV (E : Env) (sent : List Request) (csvFilePath sectionName : String) :
    Outcome (Int × Option String × Option String) × List Request :=
  match CsvtoJson E csvFilePath with
  | .fault m => (.fault m, sent)
  | .ok (_, some error) => (.ok (-1, none, some error), sent)
  | .ok (TestJson, none) =>
    match GetSectionIDByName E sent sectionName TestRailProjectID TestRailSuiteID with
    | (.fault m, sent') => (.fault m, sent')
    | (.ok (sectionID, _), sent') =>
      if sectionID = -1 then
        (.ok (-1, none, some "Section ID not found"), sent')
      else if TestJson.length > 0 then
        match uploadRows E sent' TestJson with
        | (.fault m, sent'') => (.fault m, sent'')
        | (.ok _, sent'') => (.ok (0, none, none), sent'')
      else
        (.ok (-1, none, some "no test cases to upload"), sent')

/-- The create-case requests among the requests sent. -/
def createCaseRequests (sent : List Request) : List Request :=
  sent.filter (fun r => r.method == "POST")

/-! ## Text (lines 336-341, 475-476, 516) -/

/-- The scan of `strings.ReplaceAll` for a non-empty `old`: `skip` counts the
characters of a match that are still to be passed over. -/
def replaceScan (old new : List Char) : Nat → List Char → List Char
  | _, [] => []
  | skip + 1, _ :: cs => replaceScan old new skip cs
  | 0, c :: cs =>
    if old.isPrefixOf (c :: cs) then new ++ replaceScan old new (old.length - 1) cs
    else c :: replaceScan old new 0 cs

/-- Library function `strings.ReplaceAll(s, old, new)`: the non-overlapping
occurrences of `old` are replaced from left to right; an empty `old` matches
before every character and at the end. -/
def ReplaceAll (s old new : String) : String :=
  if old.data = [] then ⟨new.data ++ (s.data.map (fun c => c :: new.data)).flatten⟩
  else ⟨replaceScan old.data new.data 0 s.data⟩

/-- Function `sanitizeString` (lines 336-341). -/
def sanitizeString (s : String) : String :=
  let s := ReplaceAll s "\n" "\\n"
  let s := ReplaceAll s "\t" "\\t"
  s

/-- The description column of a row (lines 516 and 518):
`sanitizeString(strings.ReplaceAll(comment, "\"", "\"\""))`. -/
def escapeDescription (comment : String) : String :=
  let escapedComment := ReplaceAll comment "\"" "\"\""
  sanitizeString escapedComment

/-- Library function `unicode.IsSpace`. -/
def isSpace (c : Char) : Bool :=
  c.toNat ∈ [0x09, 0x0A, 0x0B, 0x0C, 0x0D, 0x20, 0x85, 0xA0, 0x1680, 0x2028, 0x2029,
    0x202F, 0x205F, 0x3000] || (0x2000 ≤ c.toNat && c.toNat ≤ 0x200A)

/-- Library function `strings.TrimSpace`. -/
def TrimSpace (s : String) : String :=
  ⟨((s.data.dropWhile isSpace).reverse.dropWhile isSpace).reverse⟩

/-- The characters a letter of a `(?i)` pattern matches: its orbit under
`unicode.SimpleFold`, for the lower-case ASCII letters the patterns consist
of. -/
def simpleFoldOrbit (r : Char) : List Char :=
  if r = 's' then ['s', 'S', Char.ofNat 0x17F]
  else if r = 'k' then ['k', 'K', Char.ofNat 0x212A]
  else if r.isLower then [r, r.toUpper]
  else [r]

/-- Does the literal `lit` of a `(?i)` pattern match at the start of `text`? -/
def matchLiteral : List Char → List Char → Bool
  | [], _ => true
  | _ :: _, [] => false
  | r :: lit, c :: text => (simpleFoldOrbit r).contains c && matchLiteral lit text

/-- The unanchored search of a pattern `(?i)(?:w1|w2|...)`: is there a
position of `text` at which one of the literals matches? -/
def searchFrom (alts : List (List Char)) : List Char → Bool
  | [] => alts.any (fun lit => matchLiteral lit [])
  | c :: text => alts.any (fun lit => matchLiteral lit (c :: text)) || searchFrom alts text

/-- The test `re.FindStringSubmatch(s) != nil` for `re` the pattern
`(?i)(?:w1|w2|...)`. -/
def FindStringSubmatch (alts : List String) (s : String) : Bool :=
  searchFrom (alts.map String.data) s.data

/-- The pattern of line 475. -/
def isMac : List String := ["osx", "darwin", "macos", "macosx"]

/-- The pattern of line 476. -/
def isLinux : List String :=
  ["linux", "unix", "amazon", "centos", "ubuntu", "debian", "fedora", "opensuse", "rhel"]

/-! ## Parsed sources (lines 536-632) -/

/-- The nodes of `go/ast` the package looks at; every other node is `other`
with its children in the order `ast.Walk` visits them. -/
inductive Node where
  | basicLit (Value : String)
  | ident (Name : String)
  | selectorExpr (X : Node) (Sel : String)
  | callExpr (Fun : Node) (Args : List Node)
  | funcLit (Typ : Node) (Body : List Node)
  | other (children : List Node)

/-- An `ast.FuncDecl`: `Doc` is `none` for a nil comment group and otherwise
the `Text` of each comment; `Body` is `none` for a declaration without body,
otherwise the statements of the block. -/
structure FuncDecl where
  Doc : Option (List String)
  Name : String
  Body : Option (List Node)

/-- A top-level declaration. -/
inductive Decl where
  | funcDecl (fn : FuncDecl)
  | genDecl (children : List Node)

/-- An `ast.File`: its declarations in source order. -/
abbrev File := List Decl

/-- The function declarations of a file, in the order `ast.Inspect` reaches
them (function declarations occur at top level only). -/
def funcDecls : File → List FuncDecl
  | [] => []
  | .funcDecl fn :: ds => fn :: funcDecls ds
  | .genDecl _ :: ds => funcDecls ds

/-- Function `extractFunc` (lines 536-554) on the result of
`parser.ParseFile`, `none` being a parse error. -/
def extractFunc (src : Option File) : Except String (List String) :=
  match src with
  | none => .error "parse error"
  | some f => .ok ((funcDecls f).foldl (fun functionNames fn => functionNames ++ [fn.Name]) [])

/-- The loop of lines 574-576 over `fn.Doc.List`. -/
def appendDoc (commentsString : String) (list : List String) : String :=
  list.foldl (fun acc text => acc ++ (TrimSpace text ++ "\n")) commentsString

/-- The callback of lines 567-580 on a function declaration. -/
def commentsVisit (funcName : String) (commentsString : String) (fn : FuncDecl) : String :=
  if fn.Name = funcName then
    match fn.Doc with
    | some list => appendDoc commentsString list
    | none => commentsString
  else commentsString

/-- Function `extractCommentsAboveFunc` (lines 557-583): the string and the error. -/
def extractCommentsAboveFunc (src : Option File) (funcName : String) : String × Option String :=
  match src with
  | none => ("", some "parse error")
  | some f => ((funcDecls f).foldl (commentsVisit funcName) "", none)

/-- The slice `subTestName[1 : len(subTestName)-1]` of line 614.  A literal
token starts and ends with an ASCII character, so the byte slice is the
token without its first and last character; a token of length below 2 has
no such slice. -/
def stripLiteral (Value : String) : Outcome String :=
  if Value.length < 2 then
    .fault "slice bounds out of range"
  else .ok ⟨(Value.data.drop 1).dropLast⟩

/-- The inner callback of lines 608-625 on one node, `tests` being the slice
built so far. -/
def runVisit (testName : String) (tests : List String) : Node → Outcome (List String)
  | .callExpr (.selectorExpr _ Sel) Args =>
    if Sel = "Run" then
      match Args with
      | [] => .fault "index out of range [0] with length 0"
      | .basicLit Value :: _ =>
        match stripLiteral Value with
        | .fault m => .fault m
        | .ok subTestName => .ok (tests ++ [testName ++ "/" ++ subTestName])
      | _ :: _ => .ok tests
    else .ok tests
  | _ => .ok tests

mutual
/-- The traversal `ast.Inspect(n, f)` for the inner callback, which always
returns true: the callback on the node, then the children in the order of
`ast.Walk`. -/
def inspectNode (testName : String) : Node → List String → Outcome (List String)
  | .basicLit Value, tests => runVisit testName tests (.basicLit Value)
  | .ident Name, tests => runVisit testName tests (.ident Name)
  | .selectorExpr X Sel, tests =>
    match runVisit testName tests (.selectorExpr X Sel) with
    | .fault m => .fault m
    | .ok tests => inspectNode testName X tests
  | .callExpr Fun Args, tests =>
    match runVisit testName tests (.callExpr Fun Args) with
    | .fault m => .fault m
    | .ok tests =>
      match inspectNode testName Fun tests with
      | .fault m => .fault m
      | .ok tests => inspectList testName Args tests
  | .funcLit Typ Body, tests =>
    match runVisit testName tests (.funcLit Typ Body) with
    | .fault m => .fault m
    | .ok tests =>
      match inspectNode testName Typ tests with
      | .fault m => .fault m
      | .ok tests => inspectList testName Body tests
  | .other children, tests =>
    match runVisit testName tests (.other children) with
    | .fault m => .fault m
    | .ok tests => inspectList testName children tests
/-- The traversal of a list of nodes, in order. -/
def inspectList (testName : String) : List Node → List String → Outcome (List String)
  | [], tests => .ok tests
  | n :: ns, tests =>
    match inspectNode testName n tests with
    | .fault m => .fault m
    | .ok tests => inspectList testName ns tests
end

/-- The outer callback of lines 599-629 over the function declarations of
the file.  `fn.Name.Name[:4]` faults on a name of fewer than four bytes, and
`ast.Inspect` on the nil body of a declaration without body dereferences
nil. -/
def parseDecls : List FuncDecl → List String → Outcome (List String)
  | [], tests => .ok tests
  | fn :: fns, tests =>
    if fn.Name.utf8ByteSize < 4 then
      .fault "slice bounds out of range"
    else if fn.Name.data.take 4 = "Test".data then
      let testName := fn.Name
      let tests := tests ++ [testName]
      match fn.Body with
      | none => .fault "nil pointer dereference"
      | some body =>
        match inspectList testName body tests with
        | .fault m => .fault m
        | .ok tests => parseDecls fns tests
    else parseDecls fns tests

/-- Function `parseSource` (lines 587-632) on the result of
`parser.ParseFile`; a parse error ends in `panic(err)`. -/
def parseSource (src : Option File) : Outcome (List String) :=
  match src with
  | none => .fault "parse error"
  | some file => parseDecls (funcDecls file) []

/-! ## Rows of the generated file (lines 490-524) -/

/-- The match of `^(Test)` on line 500. -/
def hasTestPrefix (fn : String) : Bool :=
  "Test".data.isPrefixOf fn.data

/-- The line formatted on line 518. -/
def csvLine (fn : String) (status priorityid : Int) (estimate : String) (customos : Int)
    (description : String) : String :=
  fn ++ "," ++ toString status ++ "," ++ toString priorityid ++ "," ++ estimate ++ ","
    ++ toString customos ++ "," ++ description ++ "\n"

/-- The `if`/`else if` of lines 511-515: the value of `customos` after it. -/
def classifyPlatform (customos : Int) (comment : String) : Int :=
  if FindStringSubmatch isMac comment then 2
  else if FindStringSubmatch isLinux comment then 3
  else customos

/-- The `for` loop of lines 499-524 over the remaining function names:
`customos` is the variable declared on line 490 and `written` the lines
handed to the writer so far; the writes themselves succeed. -/
def rowsLoop (src : Option File) : List String → Int → List String →
    Except String (List String)
  | [], _, written => .ok written
  | fn :: fns, customos, written =>
    if ¬ hasTestPrefix fn then rowsLoop src fns customos written
    else
      match extractCommentsAboveFunc src fn with
      | (_, some err) => .error err
      | (comment, none) =>
        let customos := classifyPlatform customos comment
        let escapedComment := ReplaceAll comment "\"" "\"\""
        let csvLine := csvLine fn 1 3 "3m" customos (sanitizeString escapedComment)
        rowsLoop src fns 1 (written ++ [csvLine])

/-- The part of `ExtractTestsAndCommentsToCSV` that handles one `_test.go`
file (lines 490-524), on the parse result of the file: the lines written
for it, or the error returned. -/
def extractFileRows (src : Option File) : Except String (List String) :=
  let defaultOS : Int := 1
  let customos := defaultOS
  match extractFunc src with
  | .error err => .error err
  | .ok fns => rowsLoop src fns customos []

/-! ## Vocabulary of the statements -/

/-- The text `text` contains the word `w` as a substring, up to case: some
run of consecutive characters of `text` matches `w` letter by letter under
simple case folding. -/
def Mentions (text w : String) : Prop :=
  ∃ pre mid post, text.data = pre ++ mid ++ post ∧
    List.Forall₂ (fun c r => c ∈ simpleFoldOrbit r) mid w.data

/-- The text contains one of the words, up to case. -/
def MentionsAny (ws : List String) (text : String) : Prop :=
  ∃ w ∈ ws, Mentions text w

/-- The names of the functions of a file that get a row, in source order. -/
def testFuncNames (f : File) : List String :=
  ((funcDecls f).map (fun fn => fn.Name)).filter hasTestPrefix

/-- The record made of the first six columns of a row. -/
def firstSix (line : List String) : TestResult :=
  { Title := line.getD 0 "", Status := line.getD 1 "", PriorityID := line.getD 2 "",
    Estimate := line.getD 3 "", CustomOS := line.getD 4 "", Description := line.getD 5 "" }

/-- The doc lines of a declaration as `extractCommentsAboveFunc` renders
them: each comment trimmed and followed by a newline. -/
def docText (fn : FuncDecl) : String :=
  String.join ((fn.Doc.getD []).map (fun text => TrimSpace text ++ "\n"))

mutual
/-- A node followed by all nodes below it, at every depth, in depth-first
order. -/
def Node.preorder : Node → List Node
  | .basicLit Value => [.basicLit Value]
  | .ident Name => [.ident Name]
  | .selectorExpr X Sel => .selectorExpr X Sel :: X.preorder
  | .callExpr Fun Args => .callExpr Fun Args :: (Fun.preorder ++ preorderList Args)
  | .funcLit Typ Body => .funcLit Typ Body :: (Typ.preorder ++ preorderList Body)
  | .other children => .other children :: preorderList children
/-- The nodes of a list of trees, at every depth, in depth-first order. -/
def preorderList : List Node → List Node
  | [] => []
  | n :: ns => n.preorder ++ preorderList ns
end

/-- The literal token that is the first argument of a call `x.Run(lit, ...)`,
for a node of that shape. -/
def runLiteral : Node → Option String
  | .callExpr (.selectorExpr _ Sel) (.basicLit Value :: _) =>
    if Sel = "Run" then some Value else none
  | _ => none

/-- A node on which the inner callback of `parseSource` does not fault: a
call `x.Run(...)` has an argument, and a first argument that is a literal
token has at least two characters. -/
def RunSafe : Node → Prop
  | .callExpr (.selectorExpr _ Sel) Args =>
    Sel = "Run" → Args ≠ [] ∧ ∀ Value rest, Args = .basicLit Value :: rest → 2 ≤ Value.length
  | _ => True

/-- The identifier `<testName>/<literal>` for a node that is a call
`x.Run(lit, ...)`: the literal token without its first and last character. -/
def runIdentifier (testName : String) (n : Node) : Option String :=
  (runLiteral n).map (fun Value => testName ++ "/" ++ String.mk ((Value.data.drop 1).dropLast))

/-- The identifiers of one test function: its name, then `<name>/<literal>`
for every call `x.Run(lit, ...)` among the nodes of its body, at any depth,
in depth-first order. -/
def testIdentifiers (fn : FuncDecl) : List String :=
  fn.Name :: (preorderList (fn.Body.getD [])).filterMap (runIdentifier fn.Name)

/-- A decoder for the description column: `\n` and `\t` (two characters
each) are read back as newline and tab, and a doubled quote as one quote,
from left to right. -/
def unescapeChars : List Char → List Char
  | [] => []
  | [c] => [c]
  | c :: d :: rest =>
    if c = '\\' ∧ d = 'n' then '\n' :: unescapeChars rest
    else if c = '\\' ∧ d = 't' then '\t' :: unescapeChars rest
    else if c = '"' ∧ d = '"' then '"' :: unescapeChars rest
    else c :: unescapeChars (d :: rest)

/-- The decoder on strings. -/
def unescapeDescription (s : String) : String :=
  ⟨unescapeChars s.data⟩

/-- What the escaping of line 518 writes for one character of the comment. -/
def escapeChar (c : Char) : List Char :=
  if c = '"' then ['"', '"']
  else if c = '\n' then ['\\', 'n']
  else if c = '\t' then ['\\', 't']
  else [c]

/-! ## The classifier as the specification words it

These definitions follow the words of the specification (section 4.2 and the
examples of section 8) and use nothing of the embedding of the code above:
the keyword lists are written out again, case-insensitivity is case folding
of the text, "substring" is the infix relation on lists, and a row is spelled
as text. -/

/-- The mac keywords of the specification. -/
def macKeywords : List String := ["osx", "darwin", "macos", "macosx"]

/-- The linux keywords of the specification. -/
def linuxKeywords : List String :=
  ["linux", "unix", "amazon", "centos", "ubuntu", "debian", "fedora", "opensuse", "rhel"]

/-- Case folding, for the case-insensitive comparison of a text with words of
small ASCII letters: an ASCII capital letter becomes its small letter, and so
do the two other characters that Unicode simple case folding (the folding of
Go's `strings.EqualFold`) sends to an ASCII letter, the long s U+017F (to
`s`) and the Kelvin sign U+212A (to `k`); every other character stays. -/
def foldCase (c : Char) : Char :=
  if c = Char.ofNat 0x17F then 's'
  else if c = Char.ofNat 0x212A then 'k'
  else c.toLower

/-- The text contains the word, case-insensitively and as a substring: the
word is a run of consecutive characters of the case-folded text. -/
def containsWord (text w : String) : Bool :=
  decide (w.data <:+: text.data.map foldCase)

/-- The classifier of the specification: 2 (mac) if the text contains a mac
keyword, otherwise 3 (linux) if it contains a linux keyword, otherwise 1
(default). -/
def Classifier (text : String) : Int :=
  if macKeywords.any (containsWord text) then 2
  else if linuxKeywords.any (containsWord text) then 3
  else 1

/-- The names of the function declarations of a file that begin with "Test",
in source order: the functions that get a row. -/
def testFunctionNames (f : File) : List String :=
  f.filterMap (fun d =>
    match d with
    | .funcDecl fn => if "Test".data.isPrefixOf fn.Name.data then some fn.Name else none
    | .genDecl _ => none)

/-- The small ASCII letters. -/
def asciiLower : List Char := "abcdefghijklmnopqrstuvwxyz".data

/-! ## Example inputs -/

/-- A remote service that answers every request with status 200 and a body
decoding to the given sections and suites; every CSV file holds `records`. -/
def mockEnv (sections : List Section) (suites : List Suite) (records : List CsvRecord) : Env :=
  { testRailBaseUrl := "https://testrail.example"
    respond := fun _ => some (200, "")
    decodeSections := fun _ => sections
    decodeSuites := fun _ => suites
    openCsv := fun _ => .ok records
    jsonMarshal := fun t => .ok t.Title }

/-- The expression statement `t.Run(lit, func(t *testing.T) { body })`. -/
def tRun (lit : String) (body : List Node) : Node :=
  .other [.callExpr (.selectorExpr (.ident "t") "Run")
    [.basicLit lit, .funcLit (.other []) body]]

/-- The file `func TestBar(t *testing.T) { t.Run("case1", func(t *testing.T) {
t.Run("deep", func(t *testing.T) {}) }) }` with the doc comment
`// checks bar`. -/
def nestedRunFile : File :=
  [.funcDecl { Doc := some ["// checks bar"], Name := "TestBar",
               Body := some [tRun "\"case1\"" [tRun "\"deep\"" []]] }]

/-- The expression statement `t.Run(name, f)` with identifiers as arguments. -/
def tRunVar : Node :=
  .other [.callExpr (.selectorExpr (.ident "t") "Run") [.ident "name", .ident "f"]]

/-- A file with a helper function and a test function whose body nests
`t.Run` calls three deep and calls `t.Run` with a non-literal name. -/
def deepRunFile : File :=
  [.funcDecl { Doc := none, Name := "setup", Body := some [] },
   .funcDecl { Doc := none, Name := "TestDeep",
               Body := some [tRunVar, tRun "\"a\"" [tRun "\"b\"" [tRun "\"c\"" []]]] }]

/-- A file with a function `TestFoo` and a method `TestFoo`, each with a doc
comment. -/
def sameNameFile : File :=
  [.funcDecl { Doc := some ["// first doc"], Name := "TestFoo", Body := some [] },
   .funcDecl { Doc := some ["// second doc"], Name := "TestFoo", Body := some [] }]

/-- The file `func foo() {}`: one function whose name has three characters. -/
def shortNameFile : File :=
  [.funcDecl { Doc := none, Name := "foo", Body := some [] }]

/-- The file `func TestNoArgs(t *testing.T) { t.Run() }`: a test function
whose body calls `t.Run` without arguments. -/
def runNoArgsFile : File :=
  [.funcDecl { Doc := none, Name := "TestNoArgs",
               Body := some [.other [.callExpr (.selectorExpr (.ident "t") "Run") []]] }]

/-- A file with four functions: `TestMac`, documented `// runs on Darwin and
ubuntu`; the helper `setup`, documented `// linux only`; `TestLinux`,
documented `// an Ubuntu box`; and `TestPlain`, documented
`// no platform hint`. -/
def platformFile : File :=
  [.funcDecl { Doc := some ["// runs on Darwin and ubuntu"], Name := "TestMac", Body := some [] },
   .funcDecl { Doc := some ["// linux only"], Name := "setup", Body := some [] },
   .funcDecl { Doc := some ["// an Ubuntu box"], Name := "TestLinux", Body := some [] },
   .funcDecl { Doc := some ["// no platform hint"], Name := "TestPlain", Body := some [] }]

/-! ## Lemmas on the lookup loops -/

/-- The scan `for _, x := range xs { if name(x) == q { id = x.ID } }` over a
list ending its matches with `e`: the result is `e`'s ID. -/
theorem foldl_last_match {α : Type} (nameOf : α → String) (idOf : α → Int) (q : String)
    (pre : List α) (e : α) (post : List α) (init : Int)
    (he : nameOf e = q) (hpost : ∀ x ∈ post, nameOf x ≠ q) :
    (pre ++ e :: post).foldl (fun acc x => if nameOf x = q then idOf x else acc) init
      = idOf e := by
  rw [List.foldl_append, List.foldl_cons, if_pos he]
  generalize idOf e = v
  induction post generalizing v with
  | nil => rfl
  | cons x xs ih =>
    have hx : nameOf x ≠ q := hpost x (List.mem_cons_self _ _)
    rw [List.foldl_cons, if_neg hx]
    exact ih (fun y hy => hpost y (List.mem_cons_of_mem _ hy)) v

/-- The scan over a list without a match leaves the initial value. -/
theorem foldl_no_match {α : Type} (nameOf : α → String) (idOf : α → Int) (q : String)
    (xs : List α) (init : Int) (h : ∀ x ∈ xs, nameOf x ≠ q) :
    xs.foldl (fun acc x => if nameOf x = q then idOf x else acc) init = init := by
  induction xs generalizing init with
  | nil => rfl
  | cons x xs ih =>
    rw [List.foldl_cons, if_neg (h x (List.mem_cons_self _ _))]
    exact ih init (fun y hy => h y (List.mem_cons_of_mem _ hy))

/-- C2, evaluated on the code: with the remote section list
`[{id 5, name "Smoke"}]` and the name "Missing", `GetSectionIDByName` returns
`(0, false)`, and only an empty list gives `(-1, false)`. -/
theorem GetSectionIDByName_missing_name :
    (GetSectionIDByName (mockEnv [⟨5, "Smoke"⟩] [] []) [] "Missing" 34 5279).1 = .ok (0, false)
    ∧ (GetSectionIDByName (mockEnv [] [] []) [] "Missing" 34 5279).1 = .ok (-1, false) := by
  constructor <;> decide

/-- C3: when the decoded suite list has no suite of the queried name,
`GetSuiteIDByName` returns -1 with a non-nil error: "Suites list is empty"
for the empty list, "Suite ID not found, ..." otherwise. -/
theorem GetSuiteIDByName_not_found (E : Env) (sent : List Request) (SuiteName : String)
    (ProjectID : Int) (status : Int) (body : String)
    (hresp : E.respond ⟨"GET", getSuitesUrl E ProjectID, ""⟩ = some (status, body))
    (hnone : ∀ s ∈ E.decodeSuites body, s.Name ≠ SuiteName) :
    (GetSuiteIDByName E sent SuiteName ProjectID).1 =
      .ok (-1, some (if E.decodeSuites body = [] then "Suites list is empty"
                     else "Suite ID not found, for suite name " ++ SuiteName)) := by
  unfold GetSuiteIDByName executeTestRailRequest
  simp only [hresp]
  by_cases hl : E.decodeSuites body = []
  · simp [hl]
  · have hlen : ¬ (E.decodeSuites body).length = 0 := by
      simpa [List.length_eq_zero] using hl
    have hfold := foldl_no_match (fun s : Suite => s.Name) (fun s => s.ID) SuiteName
      (E.decodeSuites body) 0 hnone
    simp only [hlen, if_false, hl, hfold, if_true]

/-- An instance of the not-found result: the suite list `[{id 7, name "Regression"}]`
queried with "DOES_NOT_EXIST". -/
theorem GetSuiteIDByName_not_found_witness :
    (GetSuiteIDByName (mockEnv [] [⟨7, "Regression"⟩] []) [] "DOES_NOT_EXIST" 34).1 =
      .ok (-1, some "Suite ID not found, for suite name DOES_NOT_EXIST") :=
  GetSuiteIDByName_not_found (mockEnv [] [⟨7, "Regression"⟩] []) [] "DOES_NOT_EXIST" 34 200 ""
    rfl (by decide)

/-- C4, refuted as stated: the list holds two sections (suites) named
"Smoke", the last with ID 0, and neither lookup succeeds. -/
theorem lookup_last_zero_not_found :
    (GetSectionIDByName (mockEnv [⟨7, "Smoke"⟩, ⟨0, "Smoke"⟩] [] []) [] "Smoke" 34 5279).1
      = .ok (0, false)
    ∧ (GetSuiteIDByName (mockEnv [] [⟨7, "Smoke"⟩, ⟨0, "Smoke"⟩] []) [] "Smoke" 34).1
      = .ok (-1, some "Suite ID not found, for suite name Smoke") := by
  constructor <;> decide

/-- C4, amended: when the decoded list contains an entry of the queried
name, both lookups act on the ID of the last such entry: a non-zero ID is
returned with success (`true`, nil error), and the ID 0 is reported as not
found (`(0, false)`, respectively -1 with an error). -/
theorem lookup_returns_last_match (E : Env) (sent : List Request) (name : String)
    (ProjectID : Int) :
    (∀ (SuiteID status : Int) (body : String) (pre : List Section) (e : Section)
        (post : List Section),
      E.respond ⟨"GET", getSectionsUrl E ProjectID SuiteID, ""⟩ = some (status, body) →
      E.decodeSections body = pre ++ e :: post →
      e.Name = name → (∀ x ∈ post, x.Name ≠ name) →
      (GetSectionIDByName E sent name ProjectID SuiteID).1 =
        (if e.ID = 0 then .ok (0, false) else .ok (e.ID, true)))
    ∧ (∀ (status : Int) (body : String) (pre : List Suite) (e : Suite) (post : List Suite),
      E.respond ⟨"GET", getSuitesUrl E ProjectID, ""⟩ = some (status, body) →
      E.decodeSuites body = pre ++ e :: post →
      e.Name = name → (∀ x ∈ post, x.Name ≠ name) →
      (GetSuiteIDByName E sent name ProjectID).1 =
        (if e.ID = 0 then .ok (-1, some ("Suite ID not found, for suite name " ++ name))
         else .ok (e.ID, none))) := by
  constructor
  · intro SuiteID status body pre e post hresp hlist he hpost
    unfold GetSectionIDByName executeTestRailRequest
    simp only [hresp, hlist]
    have hfold := foldl_last_match (fun s : Section => s.Name) (fun s => s.ID) name
      pre e post 0 he hpost
    simp only [hfold]
    by_cases h0 : e.ID = 0 <;> simp [h0]
  · intro status body pre e post hresp hlist he hpost
    unfold GetSuiteIDByName executeTestRailRequest
    simp only [hresp, hlist]
    have hfold := foldl_last_match (fun s : Suite => s.Name) (fun s => s.ID) name
      pre e post 0 he hpost
    simp only [hfold]
    by_cases h0 : e.ID = 0 <;> simp [h0]

/-- An instance of the last-match rule: two sections and two suites named
"Smoke". -/
theorem lookup_returns_last_match_witness :
    (GetSectionIDByName (mockEnv [⟨5, "Smoke"⟩, ⟨6, "Smoke"⟩, ⟨8, "Other"⟩]
        [⟨3, "Smoke"⟩, ⟨4, "Smoke"⟩] []) [] "Smoke" 34 5279).1 = .ok (6, true)
    ∧ (GetSuiteIDByName (mockEnv [⟨5, "Smoke"⟩, ⟨6, "Smoke"⟩, ⟨8, "Other"⟩]
        [⟨3, "Smoke"⟩, ⟨4, "Smoke"⟩] []) [] "Smoke" 34).1 = .ok (4, none) :=
  ⟨(lookup_returns_last_match
      (mockEnv [⟨5, "Smoke"⟩, ⟨6, "Smoke"⟩, ⟨8, "Other"⟩] [⟨3, "Smoke"⟩, ⟨4, "Smoke"⟩] [])
      [] "Smoke" 34).1 5279 200 "" [⟨5, "Smoke"⟩] ⟨6, "Smoke"⟩ [⟨8, "Other"⟩]
      rfl rfl rfl (by decide),
   (lookup_returns_last_match
      (mockEnv [⟨5, "Smoke"⟩, ⟨6, "Smoke"⟩, ⟨8, "Other"⟩] [⟨3, "Smoke"⟩, ⟨4, "Smoke"⟩] [])
      [] "Smoke" 34).2 200 "" [⟨3, "Smoke"⟩] ⟨4, "Smoke"⟩ [] rfl rfl rfl (by decide)⟩

/-! ## The case-ID index -/

/-- Reading the map built by the loop of `CreateTestCaseIdMap` from a map
`m`, at a title no case of the list has, reads `m`. -/
theorem foldl_set_no_match (tests : List Case) (m : GoMap) (title : String)
    (h : ∀ c ∈ tests, c.Title ≠ title) :
    (tests.foldl (fun m t => GoMap.set m t.Title t.ID) m) title = m title := by
  induction tests generalizing m with
  | nil => rfl
  | cons c cs ih =>
    rw [List.foldl_cons, ih _ (fun x hx => h x (List.mem_cons_of_mem _ hx))]
    have hc : title ≠ c.Title := fun heq => h c (List.mem_cons_self _ _) heq.symm
    simp [GoMap.set, hc]

/-- A list either has a last element satisfying `p` or none. -/
theorem last_match_or_none {α : Type} (p : α → Prop) (xs : List α) :
    (∃ pre c post, xs = pre ++ c :: post ∧ p c ∧ ∀ x ∈ post, ¬ p x) ∨ (∀ x ∈ xs, ¬ p x) := by
  induction xs with
  | nil => right; simp
  | cons a as ih =>
    rcases ih with ⟨pre, c, post, hxs, hc, hpost⟩ | hnone
    · left; exact ⟨a :: pre, c, post, by simp [hxs], hc, hpost⟩
    · by_cases ha : p a
      · left; exact ⟨[], a, as, rfl, ha, hnone⟩
      · right
        intro x hx
        rcases List.mem_cons.mp hx with rfl | hx
        · exact ha
        · exact hnone x hx

/-- C5: after `CreateTestCaseIdMap(tests)`, whatever the map held before,
`GetTestCaseIdByName(title)` returns `(id, true)` with `id` the ID of the last
case of `tests` with that title, or `(0, false)` when `tests` has no case
with that title; and it returns `(0, false)` exactly in the latter case. -/
theorem GetTestCaseIdByName_after_create (old : GoMap) (tests : List Case) (title : String) :
    ((∃ pre c post, tests = pre ++ c :: post ∧ c.Title = title ∧ (∀ x ∈ post, x.Title ≠ title)
        ∧ GetTestCaseIdByName (CreateTestCaseIdMap old tests) title = (c.ID, true))
      ∨ ((∀ c ∈ tests, c.Title ≠ title)
        ∧ GetTestCaseIdByName (CreateTestCaseIdMap old tests) title = (0, false)))
    ∧ (GetTestCaseIdByName (CreateTestCaseIdMap old tests) title = (0, false)
        ↔ ∀ c ∈ tests, c.Title ≠ title) := by
  have hfound : ∀ pre c post, tests = pre ++ c :: post → c.Title = title →
      (∀ x ∈ post, x.Title ≠ title) →
      GetTestCaseIdByName (CreateTestCaseIdMap old tests) title = (c.ID, true) := by
    intro pre c post hxs hc hpost
    subst hxs
    unfold GetTestCaseIdByName CreateTestCaseIdMap GoMap.get
    rw [List.foldl_append, List.foldl_cons, foldl_set_no_match post _ title hpost]
    simp [GoMap.set, hc]
  have hmiss : (∀ c ∈ tests, c.Title ≠ title) →
      GetTestCaseIdByName (CreateTestCaseIdMap old tests) title = (0, false) := by
    intro hnone
    unfold GetTestCaseIdByName CreateTestCaseIdMap GoMap.get
    rw [foldl_set_no_match tests _ title hnone]
    rfl
  rcases last_match_or_none (fun c : Case => c.Title = title) tests with
    ⟨pre, c, post, hxs, hc, hpost⟩ | hnone
  · have hres := hfound pre c post hxs hc hpost
    refine ⟨Or.inl ⟨pre, c, post, hxs, hc, hpost, hres⟩, ?_⟩
    rw [hres]
    constructor
    · intro h; simp at h
    · intro h
      exact absurd hc (h c (by simp [hxs]))
  · exact ⟨Or.inr ⟨hnone, hmiss hnone⟩, fun _ => hnone, hmiss⟩

/-! ## Delimited input -/

/-- A row of at least six columns is converted without fault, to the record
of its first six columns. -/
theorem toTestResult_of_six (line : List String) (h : 6 ≤ line.length) :
    toTestResult line = .ok (firstSix line) := by
  match line, h with
  | a :: b :: c :: d :: e :: f :: rest, _ => rfl

/-- The loop of `CsvtoJson` once the column count `n ≥ 6` is fixed. -/
theorem csvLoop_fixed (E : Env) (enc : TestResult → String)
    (hm : ∀ t, E.jsonMarshal t = .ok (enc t)) (n : Nat) (hn : 6 ≤ n)
    (rows : List (List String)) (jsonRows : List String) :
    csvLoop E n jsonRows (rows.map Except.ok) =
      if ∀ r ∈ rows, r.length = n then
        .ok (jsonRows ++ rows.map (fun l => enc (firstSix l)), none)
      else .ok ([], some ErrFieldCount) := by
  induction rows generalizing jsonRows with
  | nil => simp [csvLoop]
  | cons r rs ih =>
    have hpos : n > 0 := by omega
    by_cases hr : r.length = n
    · have h6 : 6 ≤ r.length := by omega
      simp only [List.map_cons, csvLoop, readRecord, hpos, if_true, hr, ne_eq,
        not_true_eq_false, if_false]
      rw [toTestResult_of_six r h6]
      simp only [hm]
      rw [ih]
      by_cases hall : ∀ x ∈ rs, x.length = n
      · simp [hall, hr]
      · simp [hall]
    · simp [csvLoop, readRecord, hpos, hr]

/-- C6, refuted as stated: a file whose only row has seven columns is
converted without error. -/
theorem CsvtoJson_seven_columns :
    CsvtoJson (mockEnv [] [] [.ok ["TestBar", "1", "3", "3m", "1", "checks bar", "extra"]])
      "cases.csv" = .ok (["TestBar"], none) := by
  rfl

/-- C6, amended: for a file whose rows all lex and whose first row has at
least six columns, `CsvtoJson` returns the error `ErrFieldCount` and no rows
when some later row's column count differs from the first row's, and
otherwise (six or more columns in every row) one converted row per input
row, made of its first six columns. -/
theorem CsvtoJson_column_count (E : Env) (filePath : String) (enc : TestResult → String)
    (first : List String) (rest : List (List String))
    (hopen : E.openCsv filePath = .ok ((first :: rest).map Except.ok))
    (hm : ∀ t, E.jsonMarshal t = .ok (enc t))
    (h6 : 6 ≤ first.length) :
    CsvtoJson E filePath =
      if ∀ r ∈ rest, r.length = first.length then
        .ok ((first :: rest).map (fun l => enc (firstSix l)), none)
      else .ok ([], some ErrFieldCount) := by
  unfold CsvtoJson
  simp only [hopen, List.map_cons, csvLoop, readRecord, gt_iff_lt, lt_self_iff_false, if_false]
  rw [toTestResult_of_six first h6]
  simp only [hm]
  rw [csvLoop_fixed E enc hm first.length h6 rest]
  simp

/-- An instance of the column-count rule: a seven-column row followed by a
six-column row. -/
theorem CsvtoJson_column_count_witness :
    CsvtoJson (mockEnv [] [] [.ok ["TestA", "1", "3", "3m", "1", "a", "x"],
        .ok ["TestB", "1", "3", "3m", "1", "b"]]) "cases.csv" = .ok ([], some ErrFieldCount) :=
  CsvtoJson_column_count
    (mockEnv [] [] [.ok ["TestA", "1", "3", "3m", "1", "a", "x"],
      .ok ["TestB", "1", "3", "3m", "1", "b"]]) "cases.csv" (fun t => t.Title)
    ["TestA", "1", "3", "3m", "1", "a", "x"] [["TestB", "1", "3", "3m", "1", "b"]]
    rfl (fun _ => rfl) (by decide)

/-! ## Description escaping -/

/-- Library function `strings.ReplaceAll` with a one-character `old` rewrites character by
character. -/
theorem replaceScan_single (o : Char) (new s : List Char) :
    replaceScan [o] new 0 s = s.flatMap (fun c => if c = o then new else [c]) := by
  induction s with
  | nil => rfl
  | cons c cs ih =>
    by_cases h : c = o
    · subst h
      simp [replaceScan, List.isPrefixOf, ih]
    · have h' : ¬ o = c := fun e => h e.symm
      simp [replaceScan, List.isPrefixOf, ih, h, h']

/-- The escaping of a description rewrites it character by character. -/
theorem escapeDescription_data (x : String) :
    (escapeDescription x).data = x.data.flatMap escapeChar := by
  unfold escapeDescription sanitizeString ReplaceAll
  have h1 : ("\"" : String).data = ['"'] := rfl
  have h2 : ("\n" : String).data = ['\n'] := rfl
  have h3 : ("\t" : String).data = ['\t'] := rfl
  simp only [h1, h2, h3, List.cons_ne_nil, if_false, replaceScan_single]
  induction x.data with
  | nil => rfl
  | cons c cs ih =>
    simp only [List.flatMap_cons, List.flatMap_append, ih]
    congr 1
    unfold escapeChar
    by_cases hq : c = '"'
    · subst hq; decide
    · by_cases hn : c = '\n'
      · subst hn; decide
      · by_cases ht : c = '\t'
        · subst ht; decide
        · simp [hq, hn, ht]

/-- The decoder passes over a character that starts no escape. -/
theorem unescapeChars_plain (c : Char) (ys : List Char) (h1 : c ≠ '\\') (h2 : c ≠ '"') :
    unescapeChars (c :: ys) = c :: unescapeChars ys := by
  cases ys with
  | nil => simp [unescapeChars]
  | cons d rest => simp [unescapeChars, h1, h2]

/-- The decoder passes over a backslash that is not followed by `n` or `t`. -/
theorem unescapeChars_backslash (ys : List Char)
    (h : ∀ d rest, ys = d :: rest → d ≠ 'n' ∧ d ≠ 't') :
    unescapeChars ('\\' :: ys) = '\\' :: unescapeChars ys := by
  cases ys with
  | nil => simp [unescapeChars]
  | cons d rest =>
    obtain ⟨hn, ht⟩ := h d rest rfl
    simp [unescapeChars, hn, ht]

/-- The first character written for a character other than `n` and `t` is
neither `n` nor `t`. -/
theorem escapeChar_head (d : Char) (hn : d ≠ 'n') (ht : d ≠ 't') (ys : List Char) :
    ∀ e rest, escapeChar d ++ ys = e :: rest → e ≠ 'n' ∧ e ≠ 't' := by
  intro e rest heq
  unfold escapeChar at heq
  by_cases hq : d = '"'
  · simp [hq] at heq; rw [← heq.1]; decide
  · by_cases hnl : d = '\n'
    · simp [hnl] at heq; rw [← heq.1]; decide
    · by_cases htb : d = '\t'
      · simp [htb] at heq; rw [← heq.1]; decide
      · simp [hq, hnl, htb] at heq; rw [← heq.1]; exact ⟨hn, ht⟩

/-- The decoder inverts the escaping on a text in which no backslash is
followed by `n` or `t`. -/
theorem unescapeChars_escape (xs : List Char)
    (h : ∀ pre d post, xs = pre ++ '\\' :: d :: post → d ≠ 'n' ∧ d ≠ 't') :
    unescapeChars (xs.flatMap escapeChar) = xs := by
  induction xs with
  | nil => rfl
  | cons c cs ih =>
    have ih' := ih (fun pre d post heq => h (c :: pre) d post (by simp [heq]))
    rw [List.flatMap_cons]
    by_cases hq : c = '"'
    · subst hq
      have : escapeChar '"' = ['"', '"'] := by decide
      simp [this, unescapeChars, ih']
    · by_cases hnl : c = '\n'
      · subst hnl
        have : escapeChar '\n' = ['\\', 'n'] := by decide
        simp [this, unescapeChars, ih']
      · by_cases htb : c = '\t'
        · subst htb
          have : escapeChar '\t' = ['\\', 't'] := by decide
          simp [this, unescapeChars, ih']
        · have hc : escapeChar c = [c] := by simp [escapeChar, hq, hnl, htb]
          rw [hc, List.singleton_append]
          by_cases hb : c = '\\'
          · subst hb
            rw [unescapeChars_backslash, ih']
            intro e rest heq
            cases cs with
            | nil => simp at heq
            | cons d ds =>
              obtain ⟨hn, ht⟩ := h [] d ds rfl
              rw [List.flatMap_cons] at heq
              exact escapeChar_head d hn ht _ e rest heq
          · rw [unescapeChars_plain c _ hb hq, ih']

/-- C7, refuted as stated: the newline and the two characters backslash, `n`
are different descriptions with the same escaped text. -/
theorem escapeDescription_collision :
    ("\n" : String) ≠ "\\n" ∧ escapeDescription "\n" = escapeDescription "\\n" := by
  constructor <;> decide

/-- C7, amended: on descriptions in which no backslash is immediately
followed by `n` or `t` the escaping is reversible: `unescapeDescription`
decodes the escaped text back to the description, also when it contains
quotes, tabs and newlines. -/
theorem unescape_escapeDescription (x : String)
    (h : ∀ pre d post, x.data = pre ++ '\\' :: d :: post → d ≠ 'n' ∧ d ≠ 't') :
    unescapeDescription (escapeDescription x) = x := by
  unfold unescapeDescription
  rw [escapeDescription_data, unescapeChars_escape x.data h]

/-- An instance of the round trip: a description with quotes, a newline, a
tab and a backslash. -/
theorem unescape_escapeDescription_witness :
    unescapeDescription (escapeDescription "say \"hi\"\n\tto\\all") = "say \"hi\"\n\tto\\all" :=
  unescape_escapeDescription "say \"hi\"\n\tto\\all" (by
    intro pre d post heq
    have hmem : ('\\' :: d :: post) <:+ "say \"hi\"\n\tto\\all".data := ⟨pre, heq.symm⟩
    have hall : ∀ t ∈ ("say \"hi\"\n\tto\\all".data).tails,
        ∀ d1 post1, t = '\\' :: d1 :: post1 → d1 ≠ 'n' ∧ d1 ≠ 't' := by
      simp [List.tails]
    exact hall _ ((List.mem_tails _ _).mpr hmem) d post rfl)

/-! ## Platform classification -/

/-- Membership in the orbit of a pattern letter, as the matcher tests it. -/
theorem orbit_contains (r c : Char) :
    (simpleFoldOrbit r).contains c = true ↔ c ∈ simpleFoldOrbit r := by
  simp

/-- A literal matches at the start of a text exactly when the text starts
with a run of characters matching it letter by letter. -/
theorem matchLiteral_iff (lit text : List Char) :
    matchLiteral lit text = true ↔
      ∃ mid post, text = mid ++ post ∧
        List.Forall₂ (fun c r => c ∈ simpleFoldOrbit r) mid lit := by
  induction lit generalizing text with
  | nil =>
    simp only [matchLiteral, true_iff]
    exact ⟨[], text, rfl, List.Forall₂.nil⟩
  | cons r lit ih =>
    cases text with
    | nil =>
      simp only [matchLiteral, Bool.false_eq_true, false_iff]
      rintro ⟨mid, post, heq, hall⟩
      cases hall with
      | cons _ _ => simp at heq
    | cons c text =>
      simp only [matchLiteral, Bool.and_eq_true, orbit_contains, ih]
      constructor
      · rintro ⟨hc, mid, post, rfl, hall⟩
        exact ⟨c :: mid, post, rfl, List.Forall₂.cons hc hall⟩
      · rintro ⟨mid, post, heq, hall⟩
        cases hall with
        | cons hc hall =>
          simp only [List.cons_append, List.cons.injEq] at heq
          obtain ⟨rfl, rfl⟩ := heq
          exact ⟨hc, _, post, rfl, hall⟩

/-- The search succeeds exactly when some literal matches at some position. -/
theorem searchFrom_iff (alts : List (List Char)) (text : List Char) :
    searchFrom alts text = true ↔
      ∃ pre rest, text = pre ++ rest ∧ ∃ lit ∈ alts, matchLiteral lit rest = true := by
  induction text with
  | nil =>
    simp only [searchFrom, List.any_eq_true]
    constructor
    · rintro ⟨lit, hlit, hm⟩
      exact ⟨[], [], rfl, lit, hlit, hm⟩
    · rintro ⟨pre, rest, heq, lit, hlit, hm⟩
      have hrest : rest = [] := (List.append_eq_nil.mp heq.symm).2
      subst hrest
      exact ⟨lit, hlit, hm⟩
  | cons c text ih =>
    simp only [searchFrom, Bool.or_eq_true, List.any_eq_true, ih]
    constructor
    · rintro (⟨lit, hlit, hm⟩ | ⟨pre, rest, rfl, lit, hlit, hm⟩)
      · exact ⟨[], c :: text, rfl, lit, hlit, hm⟩
      · exact ⟨c :: pre, rest, rfl, lit, hlit, hm⟩
    · rintro ⟨pre, rest, heq, lit, hlit, hm⟩
      cases pre with
      | nil =>
        simp only [List.nil_append] at heq
        subst heq
        exact Or.inl ⟨lit, hlit, hm⟩
      | cons p pre =>
        simp only [List.cons_append, List.cons.injEq] at heq
        obtain ⟨_, rfl⟩ := heq
        exact Or.inr ⟨pre, rest, rfl, lit, hlit, hm⟩

/-- The `(?i)` pattern of alternatives matches a text exactly when the text
contains one of the words up to case. -/
theorem FindStringSubmatch_iff (ws : List String) (text : String) :
    FindStringSubmatch ws text = true ↔ MentionsAny ws text := by
  unfold FindStringSubmatch MentionsAny Mentions
  rw [searchFrom_iff]
  constructor
  · rintro ⟨pre, rest, heq, lit, hlit, hm⟩
    obtain ⟨w, hw, rfl⟩ := List.mem_map.mp hlit
    obtain ⟨mid, post, rfl, hall⟩ := (matchLiteral_iff _ _).mp hm
    exact ⟨w, hw, pre, mid, post, by simp [heq], hall⟩
  · rintro ⟨w, hw, pre, mid, post, heq, hall⟩
    refine ⟨pre, mid ++ post, by simp [heq], w.data, List.mem_map.mpr ⟨w, hw, rfl⟩, ?_⟩
    exact (matchLiteral_iff _ _).mpr ⟨mid, post, rfl, hall⟩

/-- The names collected by `extractFunc`. -/
theorem extractFunc_names (f : File) :
    extractFunc (some f) = .ok ((funcDecls f).map (fun fn => fn.Name)) := by
  unfold extractFunc
  have h : ∀ (fns : List FuncDecl) (acc : List String),
      fns.foldl (fun functionNames fn => functionNames ++ [fn.Name]) acc
        = acc ++ fns.map (fun fn => fn.Name) := by
    intro fns
    induction fns with
    | nil => simp
    | cons fn fns ih => intro acc; simp [ih]
  simp [h]

/-- The row loop entered with `customos = 1` writes, for every name with the
prefix `Test`, the row classified from that name's comment alone. -/
theorem rowsLoop_rows (f : File) (fns : List String) (written : List String) :
    rowsLoop (some f) fns 1 written = .ok (written ++ (fns.filter hasTestPrefix).map
      (fun fn => csvLine fn 1 3 "3m"
        (classifyPlatform 1 (extractCommentsAboveFunc (some f) fn).1)
        (escapeDescription (extractCommentsAboveFunc (some f) fn).1))) := by
  induction fns generalizing written with
  | nil => simp [rowsLoop]
  | cons fn fns ih =>
    by_cases hp : hasTestPrefix fn = true
    · simp only [rowsLoop, hp, not_true_eq_false, if_false, extractCommentsAboveFunc]
      rw [ih]
      simp [List.filter_cons, hp, escapeDescription, extractCommentsAboveFunc]
    · simp only [rowsLoop, hp, not_false_eq_true, if_true]
      rw [ih]
      simp [List.filter_cons, hp]

/-! ## The code against the classifier of the specification -/

/-- A character with the code of an ASCII capital letter is one of them. -/
theorem upper_cases (c : Char) (h : 65 ≤ c.toNat ∧ c.toNat ≤ 90) :
    c ∈ "ABCDEFGHIJKLMNOPQRSTUVWXYZ".data := by
  obtain ⟨h1, h2⟩ := h
  have hc : c = Char.ofNat c.toNat := (Char.ofNat_toNat c).symm
  generalize c.toNat = n at h1 h2 hc
  subst hc
  interval_cases n <;> decide

/-- The characters the matcher accepts for a small letter of a pattern are
the characters that case folding sends to that letter. -/
theorem orbit_iff_fold (r : Char) (hr : r ∈ asciiLower) (c : Char) :
    c ∈ simpleFoldOrbit r ↔ foldCase c = r := by
  by_cases h1 : c = Char.ofNat 0x17F
  · subst h1
    revert r
    decide
  by_cases h2 : c = Char.ofNat 0x212A
  · subst h2
    revert r
    decide
  by_cases hu : 65 ≤ c.toNat ∧ c.toNat ≤ 90
  · have hc := upper_cases c hu
    simp only [String.data, List.mem_cons, List.mem_singleton, List.not_mem_nil, or_false] at hc
    revert r
    rcases hc with rfl | rfl | rfl | rfl | rfl | rfl | rfl | rfl | rfl | rfl | rfl | rfl | rfl
      | rfl | rfl | rfl | rfl | rfl | rfl | rfl | rfl | rfl | rfl | rfl | rfl | rfl <;> decide
  · have hf : foldCase c = c := by
      unfold foldCase Char.toLower
      simp only [h1, h2, if_false]
      simp [hu]
    rw [hf]
    have hall : ∀ r ∈ asciiLower, r ∈ simpleFoldOrbit r ∧ ∀ x ∈ simpleFoldOrbit r,
        x = r ∨ x = Char.ofNat 0x17F ∨ x = Char.ofNat 0x212A
          ∨ (65 ≤ x.toNat ∧ x.toNat ≤ 90) := by
      decide
    obtain ⟨hself, hmem⟩ := hall r hr
    constructor
    · intro hc
      rcases hmem c hc with h | h | h | h
      · exact h
      · exact absurd h h1
      · exact absurd h h2
      · exact absurd h hu
    · intro hc
      rw [hc]
      exact hself

/-- A run of characters matches a word of small letters under the matcher
exactly when its case folding is the word. -/
theorem forall2_orbit_iff (w mid : List Char) (hw : ∀ r ∈ w, r ∈ asciiLower) :
    List.Forall₂ (fun c r => c ∈ simpleFoldOrbit r) mid w ↔ mid.map foldCase = w := by
  induction w generalizing mid with
  | nil =>
    cases mid with
    | nil => simp
    | cons c cs => simp
  | cons r w ih =>
    cases mid with
    | nil => simp
    | cons c cs =>
      have hr := hw r (List.mem_cons_self _ _)
      have ih' := ih cs (fun x hx => hw x (List.mem_cons_of_mem _ hx))
      simp [List.forall₂_cons, orbit_iff_fold r hr c, ih']

/-- For a word of small letters, the matcher's notion of containing the word
is that of the specification. -/
theorem Mentions_iff_containsWord (text w : String) (hw : ∀ r ∈ w.data, r ∈ asciiLower) :
    Mentions text w ↔ containsWord text w = true := by
  unfold Mentions containsWord
  rw [decide_eq_true_iff]
  constructor
  · rintro ⟨pre, mid, post, heq, hall⟩
    refine ⟨pre.map foldCase, post.map foldCase, ?_⟩
    rw [heq, ← (forall2_orbit_iff w.data mid hw).mp hall]
    simp
  · rintro ⟨s, t, heq⟩
    obtain ⟨l1, post, h1, h2, h3⟩ := List.map_eq_append_iff.mp heq.symm
    obtain ⟨pre, mid, h4, h5, h6⟩ := List.map_eq_append_iff.mp h2
    exact ⟨pre, mid, post, by rw [h1, h4], (forall2_orbit_iff w.data mid hw).mpr h6⟩

/-- A pattern whose alternatives are words of small letters matches a text
exactly when the text contains one of the words in the sense of the
specification. -/
theorem FindStringSubmatch_eq_any (ws : List String)
    (hws : ∀ w ∈ ws, ∀ r ∈ w.data, r ∈ asciiLower) (text : String) :
    FindStringSubmatch ws text = ws.any (containsWord text) := by
  rw [Bool.eq_iff_iff, FindStringSubmatch_iff, List.any_eq_true]
  unfold MentionsAny
  constructor
  · rintro ⟨w, hw, hm⟩
    exact ⟨w, hw, (Mentions_iff_containsWord text w (hws w hw)).mp hm⟩
  · rintro ⟨w, hw, hm⟩
    exact ⟨w, hw, (Mentions_iff_containsWord text w (hws w hw)).mpr hm⟩

/-- The two patterns of the code decide what the classifier of the
specification says. -/
theorem classifyPlatform_eq_Classifier (text : String) :
    classifyPlatform 1 text = Classifier text := by
  have hmac : FindStringSubmatch isMac text = macKeywords.any (containsWord text) :=
    FindStringSubmatch_eq_any macKeywords (by decide) text
  have hlinux : FindStringSubmatch isLinux text = linuxKeywords.any (containsWord text) :=
    FindStringSubmatch_eq_any linuxKeywords (by decide) text
  unfold classifyPlatform Classifier
  rw [hmac, hlinux]

/-- The line formatted for a row is the name, the fixed columns, the code
and the description, separated by commas and ended by a newline. -/
theorem csvLine_text (fn : String) (customos : Int) (description : String) :
    csvLine fn 1 3 "3m" customos description
      = fn ++ ",1,3,3m," ++ toString customos ++ "," ++ description ++ "\n" := by
  unfold csvLine
  have h1 : toString (1 : Int) = "1" := by decide
  have h3 : toString (3 : Int) = "3" := by decide
  rw [h1, h3]
  apply String.ext
  simp [String.data_append, List.append_assoc]

/-- The functions that get a row are the declared functions whose name
begins with "Test". -/
theorem testFuncNames_eq (f : File) : testFuncNames f = testFunctionNames f := by
  unfold testFuncNames testFunctionNames
  induction f with
  | nil => rfl
  | cons d ds ih =>
    cases d with
    | genDecl cs => simpa [funcDecls] using ih
    | funcDecl fn =>
      by_cases hp : "Test".data.isPrefixOf fn.Name.data = true
      · simp only [funcDecls, List.map_cons, List.filterMap_cons, hp, if_true]
        rw [List.filter_cons_of_pos (by simpa [hasTestPrefix] using hp), ih]
      · simp only [funcDecls, List.map_cons, List.filterMap_cons, hp]
        rw [List.filter_cons_of_neg (by simpa [hasTestPrefix] using hp), ih]
        simp

/-- The rows of `platformFile`, evaluated on the code: `TestMac` mentions
Darwin and ubuntu and gets 2; `TestLinux`, processed after it, gets 3;
`TestPlain`, processed after both, gets 1; `setup` gets no row. -/
theorem extractFileRows_platformFile :
    extractFileRows (some platformFile)
      = .ok ["TestMac,1,3,3m,2,// runs on Darwin and ubuntu\\n\n",
             "TestLinux,1,3,3m,3,// an Ubuntu box\\n\n",
             "TestPlain,1,3,3m,1,// no platform hint\\n\n"] := by
  rfl

/-- The classifier of the specification on the examples of the
specification. -/
theorem Classifier_examples :
    Classifier "... runs on darwin ..." = 2 ∧ Classifier "... ubuntu box ..." = 3
    ∧ Classifier "no platform hint" = 1 ∧ Classifier "darwin and ubuntu" = 2
    ∧ Classifier "Runs On MacOS" = 2 := by
  refine ⟨?_, ?_, ?_, ?_, ?_⟩ <;> decide

/-- C1: for every function of a file whose name begins with "Test", in
source order, the row written is the name, the columns 1, 3 and 3m, the
platform code, and the escaped doc-comment text extracted for the function;
the platform code is that of the specification's classifier on that text
alone, whatever was processed before: 2 if the text contains,
case-insensitively and as a substring, one of osx, darwin, macos, macosx;
otherwise 3 if it contains one of linux, unix, amazon, centos, ubuntu,
debian, fedora, opensuse, rhel; otherwise 1. -/
theorem extractFileRows_platform (f : File) :
    extractFileRows (some f) = .ok ((testFunctionNames f).map (fun fn =>
      fn ++ ",1,3,3m," ++ toString (Classifier (extractCommentsAboveFunc (some f) fn).1)
        ++ "," ++ escapeDescription (extractCommentsAboveFunc (some f) fn).1 ++ "\n")) := by
  unfold extractFileRows
  simp only [extractFunc_names]
  rw [rowsLoop_rows]
  simp only [List.nil_append, ← testFuncNames_eq, testFuncNames, csvLine_text,
    classifyPlatform_eq_Classifier]

/-! ## Doc comments -/

/-- The loop over the comments of one declaration appends its doc text. -/
theorem appendDoc_eq (commentsString : String) (list : List String) :
    appendDoc commentsString list
      = commentsString ++ String.join (list.map (fun text => TrimSpace text ++ "\n")) := by
  unfold appendDoc
  induction list generalizing commentsString with
  | nil => apply String.ext; simp
  | cons t ts ih =>
    rw [List.foldl_cons, ih]
    apply String.ext
    simp

/-- The callback over the declarations appends the doc text of every
declaration of the given name. -/
theorem foldl_commentsVisit (funcName : String) (fns : List FuncDecl) (acc : String) :
    fns.foldl (commentsVisit funcName) acc
      = acc ++ String.join ((fns.filter (fun fn => fn.Name = funcName)).map docText) := by
  induction fns generalizing acc with
  | nil => apply String.ext; simp
  | cons fn fns ih =>
    rw [List.foldl_cons, ih]
    by_cases hn : fn.Name = funcName
    · cases hd : fn.Doc with
      | none =>
        apply String.ext
        simp [commentsVisit, hn, hd, docText, List.filter_cons]
      | some list =>
        apply String.ext
        simp [commentsVisit, hn, hd, docText, List.filter_cons, appendDoc_eq]
    · simp [commentsVisit, hn, List.filter_cons]

/-- C9, refuted as stated: with two declarations named `TestFoo`, the doc
line of the second one appears in the result after that of the first. -/
theorem extractCommentsAboveFunc_same_name :
    extractCommentsAboveFunc (some sameNameFile) "TestFoo"
      = ("// first doc\n// second doc\n", none) := by
  decide

/-- C9, amended: `extractCommentsAboveFunc` returns, without error, the doc
lines (each trimmed and followed by a newline) of every function declaration
whose name equals the given name exactly, in source order; declarations of
other names contribute nothing. -/
theorem extractCommentsAboveFunc_all_matches (f : File) (funcName : String) :
    extractCommentsAboveFunc (some f) funcName
      = (String.join (((funcDecls f).filter (fun fn => fn.Name = funcName)).map docText),
         none) := by
  show ((funcDecls f).foldl (commentsVisit funcName) "", (none : Option String)) = _
  rw [foldl_commentsVisit]
  simp

/-! ## Uploading cases -/

/-- C10, evaluated on the code: with the remote section list
`[{id 5, name "Smoke"}]` and a one-row file, the name "Smoke" resolves to
section 5, yet the create-case request goes to `add_case/266771`, not to
`add_case/5`; and for the name "Missing", which resolves to no section, a
create-case request is issued all the same and no error is returned. -/
theorem UploadTestCasesInCSV_fixed_section :
    (GetSectionIDByName
        (mockEnv [⟨5, "Smoke"⟩] [] [.ok ["TestBar", "1", "3", "3m", "1", "checks bar"]])
        [] "Smoke" TestRailProjectID TestRailSuiteID).1 = .ok (5, true)
    ∧ createCaseRequests (UploadTestCasesInCSV
        (mockEnv [⟨5, "Smoke"⟩] [] [.ok ["TestBar", "1", "3", "3m", "1", "checks bar"]])
        [] "cases.csv" "Smoke").2
      = [⟨"POST", "https://testrail.example/index.php?/api/v2/add_case/266771", "TestBar"⟩]
    ∧ addCaseUrl (mockEnv [⟨5, "Smoke"⟩] [] []) 5
      = "https://testrail.example/index.php?/api/v2/add_case/5"
    ∧ (UploadTestCasesInCSV
        (mockEnv [⟨5, "Smoke"⟩] [] [.ok ["TestBar", "1", "3", "3m", "1", "checks bar"]])
        [] "cases.csv" "Missing").1 = .ok (0, none, none)
    ∧ createCaseRequests (UploadTestCasesInCSV
        (mockEnv [⟨5, "Smoke"⟩] [] [.ok ["TestBar", "1", "3", "3m", "1", "checks bar"]])
        [] "cases.csv" "Missing").2
      = [⟨"POST", "https://testrail.example/index.php?/api/v2/add_case/266771", "TestBar"⟩] := by
  refine ⟨by decide, by decide, by decide, by decide, by decide⟩

/-! ## Test discovery -/

/-- The match of `^(Test)` and the comparison `Name[:4] == "Test"` agree. -/
theorem take_four_eq_iff (name : String) :
    name.data.take 4 = "Test".data ↔ hasTestPrefix name = true := by
  unfold hasTestPrefix
  rw [List.isPrefixOf_iff_prefix, List.prefix_iff_eq_take]
  constructor
  · intro h; exact h.symm
  · intro h; exact h.symm

/-- A token of at least two characters has the slice of line 614. -/
theorem stripLiteral_ok (Value : String) (h : 2 ≤ Value.length) :
    stripLiteral Value = .ok (String.mk ((Value.data.drop 1).dropLast)) := by
  unfold stripLiteral
  have : ¬ Value.length < 2 := by omega
  simp [this]

/-- On a node on which it does not fault, the inner callback appends the
identifier of the node, if the node is a call `x.Run(lit, ...)`. -/
theorem runVisit_eq (testName : String) (tests : List String) (n : Node) (h : RunSafe n) :
    runVisit testName tests n = .ok (tests ++ (runIdentifier testName n).toList) := by
  cases n with
  | basicLit v => simp [runVisit, runIdentifier, runLiteral]
  | ident v => simp [runVisit, runIdentifier, runLiteral]
  | selectorExpr x sel => simp [runVisit, runIdentifier, runLiteral]
  | funcLit ty body => simp [runVisit, runIdentifier, runLiteral]
  | other cs => simp [runVisit, runIdentifier, runLiteral]
  | callExpr fn args =>
    cases fn with
    | basicLit v => simp [runVisit, runIdentifier, runLiteral]
    | ident v => simp [runVisit, runIdentifier, runLiteral]
    | callExpr x sel => simp [runVisit, runIdentifier, runLiteral]
    | funcLit ty body => simp [runVisit, runIdentifier, runLiteral]
    | other cs => simp [runVisit, runIdentifier, runLiteral]
    | selectorExpr x sel =>
      by_cases hs : sel = "Run"
      · obtain ⟨hne, hlen⟩ := h hs
        cases args with
        | nil => exact absurd rfl hne
        | cons a rest =>
          cases a with
          | basicLit v =>
            have hv := hlen v rest rfl
            simp [runVisit, runIdentifier, runLiteral, hs, stripLiteral_ok v hv]
          | ident v => simp [runVisit, runIdentifier, runLiteral, hs]
          | selectorExpr x sel => simp [runVisit, runIdentifier, runLiteral, hs]
          | callExpr x sel => simp [runVisit, runIdentifier, runLiteral, hs]
          | funcLit ty body => simp [runVisit, runIdentifier, runLiteral, hs]
          | other cs => simp [runVisit, runIdentifier, runLiteral, hs]
      · cases args with
        | nil => simp [runVisit, runIdentifier, runLiteral, hs]
        | cons a rest =>
          cases a <;> simp [runVisit, runIdentifier, runLiteral, hs]

mutual
/-- The traversal of a tree appends, in depth-first order, the identifier of
every call `x.Run(lit, ...)` among its nodes, at any depth. -/
theorem inspectNode_eq (testName : String) :
    ∀ (n : Node) (tests : List String), (∀ m ∈ n.preorder, RunSafe m) →
      inspectNode testName n tests
        = .ok (tests ++ n.preorder.filterMap (runIdentifier testName))
  | .basicLit v, tests, h => by
    have h0 := runVisit_eq testName tests (.basicLit v) (h _ (by simp [Node.preorder]))
    simp [inspectNode, Node.preorder, h0, runIdentifier, runLiteral]
  | .ident v, tests, h => by
    have h0 := runVisit_eq testName tests (.ident v) (h _ (by simp [Node.preorder]))
    simp [inspectNode, Node.preorder, h0, runIdentifier, runLiteral]
  | .selectorExpr x sel, tests, h => by
    have h0 := runVisit_eq testName tests (.selectorExpr x sel) (h _ (by simp [Node.preorder]))
    have hx := inspectNode_eq testName x (tests ++ (runIdentifier testName (.selectorExpr x sel)).toList)
      (fun m hm => h m (by simp [Node.preorder, hm]))
    simp only [inspectNode, h0, hx, Node.preorder, List.filterMap_cons]
    cases runIdentifier testName (.selectorExpr x sel) <;> simp
  | .callExpr fn args, tests, h => by
    have h0 := runVisit_eq testName tests (.callExpr fn args) (h _ (by simp [Node.preorder]))
    have hf := inspectNode_eq testName fn (tests ++ (runIdentifier testName (.callExpr fn args)).toList)
      (fun m hm => h m (by simp [Node.preorder, hm]))
    have ha := inspectList_eq testName args
      (tests ++ (runIdentifier testName (.callExpr fn args)).toList
        ++ fn.preorder.filterMap (runIdentifier testName))
      (fun m hm => h m (by simp [Node.preorder, hm]))
    simp only [inspectNode, h0, hf, ha, Node.preorder, List.filterMap_cons, List.filterMap_append]
    cases runIdentifier testName (.callExpr fn args) <;> simp
  | .funcLit ty body, tests, h => by
    have h0 := runVisit_eq testName tests (.funcLit ty body) (h _ (by simp [Node.preorder]))
    have hf := inspectNode_eq testName ty (tests ++ (runIdentifier testName (.funcLit ty body)).toList)
      (fun m hm => h m (by simp [Node.preorder, hm]))
    have ha := inspectList_eq testName body
      (tests ++ (runIdentifier testName (.funcLit ty body)).toList
        ++ ty.preorder.filterMap (runIdentifier testName))
      (fun m hm => h m (by simp [Node.preorder, hm]))
    simp only [inspectNode, h0, hf, ha, Node.preorder, List.filterMap_cons, List.filterMap_append]
    cases runIdentifier testName (.funcLit ty body) <;> simp
  | .other cs, tests, h => by
    have h0 := runVisit_eq testName tests (.other cs) (h _ (by simp [Node.preorder]))
    have ha := inspectList_eq testName cs (tests ++ (runIdentifier testName (.other cs)).toList)
      (fun m hm => h m (by simp [Node.preorder, hm]))
    simp only [inspectNode, h0, ha, Node.preorder, List.filterMap_cons]
    cases runIdentifier testName (.other cs) <;> simp
/-- The traversal of a list of trees, likewise. -/
theorem inspectList_eq (testName : String) :
    ∀ (ns : List Node) (tests : List String), (∀ m ∈ preorderList ns, RunSafe m) →
      inspectList testName ns tests
        = .ok (tests ++ (preorderList ns).filterMap (runIdentifier testName))
  | [], tests, _ => by simp [inspectList, preorderList]
  | n :: ns, tests, h => by
    have hn := inspectNode_eq testName n tests (fun m hm => h m (by simp [preorderList, hm]))
    have hs := inspectList_eq testName ns (tests ++ n.preorder.filterMap (runIdentifier testName))
      (fun m hm => h m (by simp [preorderList, hm]))
    simp [inspectList, preorderList, hn, hs]
end

/-- The outer loop over declarations that cannot fault. -/
theorem parseDecls_eq (fns : List FuncDecl) (tests : List String)
    (hname : ∀ fn ∈ fns, 4 ≤ fn.Name.utf8ByteSize)
    (hbody : ∀ fn ∈ fns, hasTestPrefix fn.Name = true →
      ∃ body, fn.Body = some body ∧ ∀ m ∈ preorderList body, RunSafe m) :
    parseDecls fns tests
      = .ok (tests ++ (fns.filter (fun fn => hasTestPrefix fn.Name)).flatMap testIdentifiers) := by
  induction fns generalizing tests with
  | nil => simp [parseDecls]
  | cons fn fns ih =>
    have hlen : ¬ fn.Name.utf8ByteSize < 4 := by
      have := hname fn (List.mem_cons_self _ _); omega
    have ih' := fun tests => ih tests (fun x hx => hname x (List.mem_cons_of_mem _ hx))
      (fun x hx => hbody x (List.mem_cons_of_mem _ hx))
    by_cases hp : hasTestPrefix fn.Name = true
    · obtain ⟨body, hb, hsafe⟩ := hbody fn (List.mem_cons_self _ _) hp
      have ht : fn.Name.data.take 4 = "Test".data := (take_four_eq_iff _).mpr hp
      simp only [parseDecls, hlen, if_false, ht, if_true, hb,
        inspectList_eq fn.Name body _ hsafe, ih']
      simp [List.filter_cons, hp, testIdentifiers, hb]
    · have ht : ¬ fn.Name.data.take 4 = "Test".data := fun h => hp ((take_four_eq_iff _).mp h)
      simp only [parseDecls, hlen, if_false, ht, ih']
      simp [List.filter_cons, hp]

/-- C8, refuted as stated: in `nestedRunFile` the call `t.Run("deep", ...)`
lies inside the function literal of the sub-test `case1`, and `parseSource`
emits `TestBar/deep` for it. -/
theorem parseSource_nested_run :
    parseSource (some nestedRunFile) = .ok ["TestBar", "TestBar/case1", "TestBar/deep"] := by
  decide

/-- C8, amended: on a parsed source on which it does not fault (every
function name has at least four bytes; every function whose name starts with
"Test" has a body, in which every call `x.Run(...)` has an argument and a
first argument that is a literal token has at least two characters),
`parseSource` returns, for each function whose name starts with "Test" in
source order, the base name followed by `<base>/<literal>` for every call
`receiver.Run(literal, ...)` among the nodes of its body at any nesting
depth, those inside a sub-test's function literal included, in depth-first
order. -/
theorem parseSource_identifiers (f : File)
    (hname : ∀ fn ∈ funcDecls f, 4 ≤ fn.Name.utf8ByteSize)
    (hbody : ∀ fn ∈ funcDecls f, hasTestPrefix fn.Name = true →
      ∃ body, fn.Body = some body ∧ ∀ m ∈ preorderList body, RunSafe m) :
    parseSource (some f)
      = .ok (((funcDecls f).filter (fun fn => hasTestPrefix fn.Name)).flatMap
          testIdentifiers) := by
  unfold parseSource
  simp only [parseDecls_eq (funcDecls f) [] hname hbody, List.nil_append]

/-- An instance of the identifier list: `deepRunFile`. -/
theorem parseSource_identifiers_witness :
    parseSource (some deepRunFile)
      = .ok ["TestDeep", "TestDeep/a", "TestDeep/b", "TestDeep/c"] :=
  parseSource_identifiers deepRunFile
    (by simp [deepRunFile, funcDecls]; decide)
    (by simp [deepRunFile, funcDecls, hasTestPrefix, tRun, tRunVar, preorderList, Node.preorder,
      RunSafe]; decide)

/-! ## Faults of test discovery -/

/-- The outer loop faults whenever some function declaration has a name of
fewer than four bytes. -/
theorem parseDecls_short_name (fns : List FuncDecl) (tests : List String)
    (h : ∃ fn ∈ fns, fn.Name.utf8ByteSize < 4) :
    ∃ m, parseDecls fns tests = .fault m := by
  induction fns generalizing tests with
  | nil => obtain ⟨fn, hfn, _⟩ := h; simp at hfn
  | cons fn fns ih =>
    by_cases hs : fn.Name.utf8ByteSize < 4
    · exact ⟨"slice bounds out of range", by simp [parseDecls, hs]⟩
    · have hrest : ∃ x ∈ fns, x.Name.utf8ByteSize < 4 := by
        obtain ⟨x, hx, hlt⟩ := h
        rcases List.mem_cons.mp hx with rfl | hx
        · exact absurd hlt hs
        · exact ⟨x, hx, hlt⟩
      by_cases ht : fn.Name.data.take 4 = "Test".data
      · cases hb : fn.Body with
        | none => exact ⟨"nil pointer dereference", by simp [parseDecls, hs, ht, hb]⟩
        | some body =>
          cases hi : inspectList fn.Name body (tests ++ [fn.Name]) with
          | fault m => exact ⟨m, by simp [parseDecls, hs, ht, hb, hi]⟩
          | ok tests1 =>
            obtain ⟨m, hm⟩ := ih tests1 hrest
            exact ⟨m, by simp [parseDecls, hs, ht, hb, hi, hm]⟩
      · obtain ⟨m, hm⟩ := ih tests hrest
        exact ⟨m, by simp [parseDecls, hs, ht, hm]⟩

/-- C11, evaluated on the code: on the parsed source `func foo() {}` the
slice `fn.Name.Name[:4]` is out of range and `parseSource` faults, and on
`func TestNoArgs(t *testing.T) { t.Run() }` the index `callExpr.Args[0]` is
out of range and `parseSource` faults; neither returns a list. -/
theorem parseSource_faults :
    parseSource (some shortNameFile) = .fault "slice bounds out of range"
    ∧ parseSource (some runNoArgsFile) = .fault "index out of range [0] with length 0" := by
  constructor <;> decide

end TestRail
